import Mathlib

/-!
Verification of the file ingestion/retrieval pipeline of the `api-files`
service against its specification.

The TypeScript core is shallowly embedded:
* byte buffers (`Buffer`) become `List Nat`;
* the filesystem becomes a map `String → Option (List Nat)` from absolute
  paths to blob contents (the service only ever reads it — files are written
  by the Multer transport layer before the core runs);
* the in-memory artifact index (`FileRepositoryImpl.files : Map<string, File>`)
  becomes a function `String → Option File` updated functionally;
* `crypto`'s SHA-256 (`calculateHash`) is abstracted as an arbitrary
  deterministic function `hashFn : List Nat → String` supplied as a parameter
  (all spec claims depend only on its determinism);
* JavaScript's `String.prototype.normalize("NFD")` is abstracted as a
  parameter `nfd : String → String` for the same reason;
* Node's `path.join`/`path.extname`/`path.basename` (POSIX flavour) are
  embedded concretely below, including `..`/`.` normalization;
* thrown `ApiError`s become `Except ApiError` results.
-/

/-- JavaScript-style byte buffer: a list of byte values. -/
abbrev Buf := List Nat

/-- The filesystem visible to the service: absolute path ↦ blob bytes. -/
abbrev Fs := String → Option Buf

/-- `listStartsWith pat l` : does `l` begin with `pat`? (JS `startsWith` on chars). -/
def listStartsWith : List Char → List Char → Bool
  | [], _ => true
  | _ :: _, [] => false
  | p :: ps, c :: cs => p == c && listStartsWith ps cs

/-- JS `s.startsWith(pre)`. -/
def jsStartsWith (s pre : String) : Bool :=
  listStartsWith pre.data s.data

/-- Drop the first occurrence of `pat` from `s` (JS `s.replace(pat, "")` with a
string pattern: only the first occurrence is replaced). -/
def dropFirstOccur : List Char → List Char → List Char
  | [], _ => []
  | c :: rest, pat =>
    if listStartsWith pat (c :: rest) then (c :: rest).drop pat.length
    else c :: dropFirstOccur rest pat

/-- JS `s.replace(pat, "")` at the `String` level. -/
def jsReplaceFirstEmpty (s pat : String) : String :=
  String.mk (dropFirstOccur s.data pat.data)

/-- JS `s.replace(/\\/g, "/")`: every backslash becomes a forward slash. -/
def backslashToSlash (s : String) : String :=
  String.mk (s.data.map fun c => if c = '\\' then '/' else c)

/-- JS `s.toLowerCase()` (ASCII fragment; every use site only sees ASCII). -/
def toLowerStr (s : String) : String :=
  String.mk (s.data.map Char.toLower)

/-- JS `s.slice(0, n)`. -/
def jsSlice (s : String) (n : Nat) : String :=
  String.mk (s.data.take n)

/-- JS `a || b` on strings (empty string is falsy). -/
def jsOrStr (a b : String) : String :=
  if a = "" then b else a

/-- JS truthiness of an optional string field (`undefined` and `""` are falsy). -/
def jsTruthyStrOpt : Option String → Bool
  | none => false
  | some s => s ≠ ""

/-! ## Node `path` (POSIX) model -/

/-- Split a character list at `'/'` (keeping empty segments, like
`String.split("/")`); never returns `[]`. -/
def csplit : List Char → List (List Char)
  | [] => [[]]
  | c :: r =>
    if c = '/' then [] :: csplit r
    else
      match csplit r with
      | s :: ss => (c :: s) :: ss
      | [] => [[c]]

/-- The non-empty `/`-separated segments of a path string. -/
def splitPath (s : String) : List String :=
  ((csplit s.data).map String.mk).filter (fun seg => seg ≠ "")

/-- Join segments with `/` (no leading/trailing separator). -/
def joinSegs : List String → String
  | [] => ""
  | [p] => p
  | p :: rest => p ++ "/" ++ joinSegs rest

/-- One step of Node path normalization over segments; `acc` is the output in
reverse. `..` pops the last real segment (and disappears at the root of an
absolute path); `.` disappears. -/
def stepSeg (isAbs : Bool) (acc : List String) (seg : String) : List String :=
  if seg = "." then acc
  else if seg = ".." then
    match acc with
    | [] => if isAbs then [] else [".."]
    | top :: acc' => if top = ".." then seg :: acc else acc'
  else seg :: acc

/-- Node path normalization of a segment list. -/
def normSegs (isAbs : Bool) (segs : List String) : List String :=
  (segs.foldl (stepSeg isAbs) []).reverse

/-- Node `path.join(parts...)` (POSIX): join the non-empty parts with `/` and
normalize `.`/`..`; empty result degrades to `"."` (or `"/"` when absolute). -/
def pathJoin (parts : List String) : String :=
  let joined := joinSegs (parts.filter (fun p => p ≠ ""))
  let isAbs := jsStartsWith joined "/"
  let segs := normSegs isAbs (splitPath joined)
  if isAbs then "/" ++ joinSegs segs
  else if segs = [] then "." else joinSegs segs

/-- Characters of the last `/`-separated component of a path. -/
def lastSegChars (p : String) : List Char :=
  (p.data.reverse.takeWhile (fun c => c ≠ '/')).reverse

/-- Node `path.basename(p)`: last component, ignoring trailing slashes. -/
def pathBasename (p : String) : String :=
  String.mk (((p.data.reverse.dropWhile (fun c => c = '/')).takeWhile
    (fun c => c ≠ '/')).reverse)

/-- Node `path.extname(p)`: from the last `.` of the basename to the end;
empty when there is no dot, when the only dot leads the basename
(`.bashrc`), or for the special name `..`. -/
def extname (p : String) : String :=
  let seg := lastSegChars p
  let rev := seg.reverse
  let tailNoDot := rev.takeWhile (fun c => c ≠ '.')
  if tailNoDot.length = rev.length then ""
  else if seg.length - tailNoDot.length - 1 = 0 then ""
  else if seg = ['.', '.'] then ""
  else String.mk ('.' :: tailNoDot.reverse)

/-- Node `path.basename(p, ext)`: the basename with a trailing `ext`
stripped, unless the basename is exactly `ext`. -/
def basenameDropExt (p ext : String) : String :=
  let b := pathBasename p
  if ext ≠ "" ∧ b ≠ ext ∧ listStartsWith ext.data.reverse b.data.reverse then
    String.mk (b.data.take (b.data.length - ext.data.length))
  else b

/-! ## Data model -/

/-- `ApiError` (src/interfaces/errors/ApiError.ts): message plus HTTP status. -/
structure ApiError where
  message : String
  statusCode : Nat
deriving DecidableEq, Repr

/-- The fields of an `Express.Multer.File` that the core reads. -/
structure MulterFile where
  originalname : String
  filename : String
  path : String
  mimetype : String
  size : Nat
deriving DecidableEq, Repr

/-- Modelled from the spec: the domain entity `File`
(`src/domain/entities/File.ts` is not present in the sources; its fields
follow §3 "Artifact" of the spec and the positional constructor call in
`FileAppService.uploadFiles`: id, originalName, fileName, path, uri,
mimeType, size, contentHash — the hash being optional, "absent means trust
unconditionally"). -/
structure FileEnt where
  id : String
  originalName : String
  fileName : String
  path : String
  uri : String
  mimeType : String
  size : Nat
  hash : Option String
deriving DecidableEq, Repr

/-- The in-memory artifact index (`FileRepositoryImpl.files : Map<string, File>`),
keyed by uri. -/
abbrev Repo := String → Option FileEnt

/-- `FileRepositoryImpl.saveFile`: `this.files.set(file.uri, file)`. -/
def saveFile (repo : Repo) (f : FileEnt) : Repo :=
  fun u => if u = f.uri then some f else repo u

/-- `FileRepositoryImpl.getFilesByUris`: positional batch lookup,
`uris.map(uri => this.files.get(uri) || null)`. -/
def getFilesByUris (repo : Repo) (uris : List String) : List (Option FileEnt) :=
  uris.map repo

/-- Ingestion response element (`FileUploadDto`), pushed as
`{type, uri, name}`. -/
structure FileUploadDto where
  type : String
  uri : String
  name : String
deriving DecidableEq, Repr

/-- The `buffer` object of a retrieval response element:
`{type: "Buffer", data: number[]}`. -/
structure BufferDto where
  type : String
  data : Buf
deriving DecidableEq, Repr

/-- Retrieval response element (`FileResponseDto`): `{buffer, type}`. -/
structure FileResponseDto where
  buffer : BufferDto
  type : String
deriving DecidableEq, Repr

/-! ## `FileStorage` (src/infrastructure/storage/FileStorage.ts)

`__dirname` of the module is passed explicitly as `dirname`
(at runtime it is `<approot>/src/infrastructure/storage`). -/

/-- `baseUploadPath = path.join(__dirname, "../../../public/uploads")`. -/
def baseUploadPath (dirname : String) : String :=
  pathJoin [dirname, "../../../public/uploads"]

/-- `FileStorage.getFullPath`: uris beginning with `/uploads/` resolve under
`<__dirname>/../../../public`; anything else is a bare filename under the
default upload root. -/
def getFullPath (dirname uri : String) : String :=
  if jsStartsWith uri "/uploads/" then pathJoin [dirname, "../../../public", uri]
  else pathJoin [baseUploadPath dirname, uri]

/-- `FileStorage.fileExists` (a `stat` that does not throw). -/
def fileExists (fs : Fs) (p : String) : Bool :=
  (fs p).isSome

/-- `FileStorage.readFile`: 404 `ApiError` when the path has no file,
otherwise the blob's bytes. -/
def readFile (fs : Fs) (p : String) : Except ApiError Buf :=
  match fs p with
  | none => .error ⟨"Arquivo não encontrado: " ++ pathBasename p, 404⟩
  | some b => .ok b

/-- `FileStorage.getFile`: resolve the uri, check existence (404 on the uri
otherwise), then read (read failures surface as 500). -/
def getFile (fs : Fs) (dirname uri : String) : Except ApiError (Buf × String) :=
  let filePath := getFullPath dirname uri
  if fileExists fs filePath = false then
    .error ⟨"Arquivo não encontrado: " ++ uri, 404⟩
  else
    match readFile fs filePath with
    | .ok buffer => .ok (buffer, filePath)
    | .error _ => .error ⟨"Erro ao ler arquivo: " ++ uri, 500⟩

/-- The static extension table of `FileStorage.getMimeType`. -/
def mimeTypesTable : List (String × String) :=
  [(".html", "text/html"), (".js", "text/javascript"), (".css", "text/css"),
   (".json", "application/json"), (".png", "image/png"), (".jpg", "image/jpeg"),
   (".jpeg", "image/jpeg"), (".gif", "image/gif"), (".svg", "image/svg+xml"),
   (".pdf", "application/pdf"), (".doc", "application/msword"),
   (".docx", "application/vnd.openxmlformats-officedocument.wordprocessingml.document"),
   (".xls", "application/vnd.ms-excel"),
   (".xlsx", "application/vnd.openxmlformats-officedocument.spreadsheetml.sheet"),
   (".ppt", "application/vnd.ms-powerpoint"),
   (".pptx", "application/vnd.openxmlformats-officedocument.presentationml.presentation"),
   (".txt", "text/plain"), (".zip", "application/zip"), (".mp3", "audio/mpeg"),
   (".mp4", "video/mp4"), (".wav", "audio/wav"), (".avi", "video/x-msvideo"),
   (".mov", "video/quicktime"), (".xml", "application/xml"), (".csv", "text/csv")]

/-- `FileStorage.getMimeType`: lowercased `path.extname`, looked up in the
static table, defaulting to the generic binary type. -/
def getMimeType (filePath : String) : String :=
  let extension := toLowerStr (extname filePath)
  match mimeTypesTable.lookup extension with
  | some m => m
  | none => "application/octet-stream"

/-- `FileStorage.bufferToArray`: `Array.from(buffer)` — the byte values in
order, which is how the buffer is already modelled. -/
def bufferToArray (buffer : Buf) : Buf := buffer

/-- `FileStorage.calculateHash`: SHA-256 hex digest, abstracted by the
`hashFn` parameter. -/
def calculateHash (hashFn : Buf → String) (buffer : Buf) : String :=
  hashFn buffer

/-- `FileStorage.verifyFileIntegrity`: recompute the hash and compare with
the expected one; a falsy (`undefined`/empty) expectation trivially passes;
any read failure yields `false`. -/
def verifyFileIntegrity (fs : Fs) (hashFn : Buf → String) (filePath : String)
    (expectedHash : Option String) : Bool :=
  match readFile fs filePath with
  | .error _ => false
  | .ok buffer =>
    let actualHash := calculateHash hashFn buffer
    if jsTruthyStrOpt expectedHash = false then true
    else actualHash == expectedHash.getD ""

/-! ## Multer naming strategy (src/infrastructure/config/express.ts) -/

/-- The Unicode combining-mark block `̀`–`ͯ` removed by
`normalizeFileName`. -/
def isCombiningMark (c : Char) : Bool :=
  decide (0x300 ≤ c.val ∧ c.val ≤ 0x36f)

/-- The character class of the regex `[\w.-]` (JS `\w` = `[A-Za-z0-9_]`). -/
def jsWordDotDash (c : Char) : Bool :=
  decide ((('A' ≤ c ∧ c ≤ 'Z') ∨ ('a' ≤ c ∧ c ≤ 'z') ∨ ('0' ≤ c ∧ c ≤ '9') ∨
    c = '_') ∨ c = '.' ∨ c = '-')

/-- `normalizeFileName`: NFD-decompose, strip combining marks, replace every
character outside `[\w.-]` with `-`, lowercase. `nfd` abstracts JS
`String.prototype.normalize("NFD")`. -/
def normalizeFileName (nfd : String → String) (fileName : String) : String :=
  toLowerStr (String.mk
    (((nfd fileName).data.filter (fun c => ¬ isCombiningMark c)).map
      (fun c => if jsWordDotDash c then c else '-')))

/-- `storage.filename`: `<timestamp>-<uuid.slice(0,8)>-<normalized basename><original ext>`. -/
def multerFilename (nfd : String → String) (timestamp : Nat) (uuidv4 : String)
    (originalname : String) : String :=
  let fileExt := extname originalname
  let baseName := basenameDropExt originalname fileExt
  let normalizedName := normalizeFileName nfd baseName
  let uniqueId := jsSlice uuidv4 8
  toString timestamp ++ "-" ++ uniqueId ++ "-" ++ normalizedName ++ fileExt

/-! Spec-side rendering of the naming algorithm (spec §4.1), used only to be
compared with the code-side `multerFilename`. -/

/-- The spec's character class `[A-Za-z0-9._-]`. -/
def specAllowedChar (c : Char) : Bool :=
  decide (('A' ≤ c ∧ c ≤ 'Z') ∨ ('a' ≤ c ∧ c ≤ 'z') ∨ ('0' ≤ c ∧ c ≤ '9') ∨
    c = '.' ∨ c = '_' ∨ c = '-')

/-- Modelled from the spec: "Unicode-decompose, strip diacritics, replace
every character outside `[A-Za-z0-9._-]` with `-`, lowercase the result". -/
def specNormalize (nfd : String → String) (s : String) : String :=
  toLowerStr (String.mk
    (((nfd s).data.filter (fun c => ¬ isCombiningMark c)).map
      (fun c => if specAllowedChar c then c else '-')))

/-- Modelled from the spec: `storedName =
<millisecond-timestamp>-<8-char-random-id>-<normalized-basename><extension>`. -/
def specStoredName (nfd : String → String) (timestamp : Nat) (randomId : String)
    (originalname : String) : String :=
  toString timestamp ++ "-" ++ randomId ++ "-" ++
    specNormalize nfd (basenameDropExt originalname (extname originalname)) ++
    extname originalname

/-! ## FileAppService (src/application/services/FileAppService.ts) -/

/-- The uri recorded for an uploaded file:
`file.path.replace(path.join(process.cwd(), "public"), "").replace(/\\/g, "/")`. -/
def mkUri (cwd p : String) : String :=
  backslashToSlash (jsReplaceFirstEmpty p (pathJoin [cwd, "public"]))

/-- The `File` entity constructed for one uploaded item (`new File(uuidv4(),
originalname, filename, path, uri, mimetype, size, hash)`). -/
def mkEntity (cwd : String) (hashFn : Buf → String) (uuid : Nat → String)
    (i : Nat) (f : MulterFile) (buffer : Buf) : FileEnt :=
  ⟨uuid i, f.originalname, f.filename, f.path, mkUri cwd f.path,
    f.mimetype, f.size, some (calculateHash hashFn buffer)⟩

/-- The loop of `FileAppService.uploadFiles`; `i` numbers the `uuidv4()`
draws. An error aborts the loop but the registrations already performed
stay in the repo (the pair's second component). -/
def uploadFilesGo (cwd : String) (fs : Fs) (hashFn : Buf → String)
    (uuid : Nat → String) : Nat → Repo → List MulterFile →
    Except ApiError (List FileUploadDto) × Repo
  | _, repo, [] => (.ok [], repo)
  | i, repo, f :: rest =>
    match readFile fs f.path with
    | .error e => (.error e, repo)
    | .ok buffer =>
      let fileEntity := mkEntity cwd hashFn uuid i f buffer
      let repo1 := saveFile repo fileEntity
      match uploadFilesGo cwd fs hashFn uuid (i + 1) repo1 rest with
      | (.ok dtos, repo2) =>
        (.ok (⟨f.mimetype, fileEntity.uri, f.originalname⟩ :: dtos), repo2)
      | (.error e, repo2) => (.error e, repo2)

/-- `FileAppService.uploadFiles`: read each already-stored file, hash it,
register the entity under its uri, and collect `{type, uri, name}` responses
in input order. -/
def uploadFiles (cwd : String) (fs : Fs) (hashFn : Buf → String)
    (uuid : Nat → String) (repo : Repo) (files : List MulterFile) :
    Except ApiError (List FileUploadDto) × Repo :=
  uploadFilesGo cwd fs hashFn uuid 0 repo files

/-- The per-file body of the `loadFiles` loop: fetch the blob, verify
integrity when a hash is recorded (JS-truthy), and build the response
element with `file.mimeType || getMimeType(filePath)`. -/
def loadOne (fs : Fs) (hashFn : Buf → String) (dirname : String)
    (file : FileEnt) : Except ApiError FileResponseDto :=
  match getFile fs dirname file.uri with
  | .error e => .error e
  | .ok (buffer, filePath) =>
    if jsTruthyStrOpt file.hash &&
        !(verifyFileIntegrity fs hashFn filePath file.hash) then
      .error ⟨"Falha na verificação de integridade do arquivo: " ++ file.uri, 400⟩
    else
      .ok ⟨⟨"Buffer", bufferToArray buffer⟩,
        jsOrStr file.mimeType (getMimeType filePath)⟩

/-- The `for (const file of files)` loop of `loadFiles` (a `null` entry is
skipped by the `if (file)` guard; it cannot occur after the missing-file
check). -/
def loadFilesGo (fs : Fs) (hashFn : Buf → String) (dirname : String) :
    List (Option FileEnt) → Except ApiError (List FileResponseDto)
  | [] => .ok []
  | none :: rest => loadFilesGo fs hashFn dirname rest
  | some f :: rest =>
    match loadOne fs hashFn dirname f with
    | .error e => .error e
    | .ok r =>
      match loadFilesGo fs hashFn dirname rest with
      | .error e => .error e
      | .ok rs => .ok (r :: rs)

/-- `FileAppService.loadFiles`: batch-resolve all uris first; if any is
missing fail the whole request; otherwise process each file in order. -/
def loadFiles (fs : Fs) (hashFn : Buf → String) (dirname : String)
    (repo : Repo) (uris : List String) :
    Except ApiError (List FileResponseDto) :=
  let files := getFilesByUris repo uris
  if files.any (fun f => f.isNone) then
    .error ⟨"Um ou mais arquivos não foram encontrados", 400⟩
  else loadFilesGo fs hashFn dirname files

/-! ## Validation middlewares (src/interfaces/http/middlewares/validation.ts) -/

/-- A JSON value as found in `req.body.uris` (enough structure for the
middleware's `!x` / `Array.isArray` / `typeof` tests). -/
inductive JsVal where
  | vstr (s : String)
  | varr (elems : List JsVal)
  | vnum (n : Int)
  | vbool (b : Bool)
  | vnull
deriving Repr

/-- JS truthiness of a value (an array is always truthy, even when empty). -/
def jsTruthy : JsVal → Bool
  | .vstr s => s ≠ ""
  | .varr _ => true
  | .vnum n => n ≠ 0
  | .vbool b => b
  | .vnull => false

/-- `Array.isArray`. -/
def jsIsArray : JsVal → Bool
  | .varr _ => true
  | _ => false

/-- `typeof x === "string"`. -/
def jsIsString : JsVal → Bool
  | .vstr _ => true
  | _ => false

/-- `validateFileUpload`: reject when `req.files` is absent or an empty
array; `none` means the middleware calls `next()` with no error. -/
def validateFileUpload (files : Option (List MulterFile)) : Option ApiError :=
  if files = none ∨ files = some [] then some ⟨"Arquivo não informado", 400⟩
  else none

/-- `validateLoadFilesRequest` over the (possibly absent) `uris` field of the
request body. -/
def validateLoadFilesRequest (uris : Option JsVal) : Option ApiError :=
  match uris with
  | none => some ⟨"URIs não informadas", 400⟩
  | some v =>
    if jsTruthy v = false then some ⟨"URIs não informadas", 400⟩
    else if jsIsArray v = false then some ⟨"URIs devem ser um array", 400⟩
    else
      match v with
      | .varr elems =>
        if elems.length = 0 then some ⟨"Lista de URIs está vazia", 400⟩
        else if elems.any (fun e => jsIsString e = false) then
          some ⟨"Todas as URIs devem ser strings", 400⟩
        else none
      | _ => some ⟨"URIs devem ser um array", 400⟩

/-- Extract the string elements once validation has passed. -/
def jsStrings : List JsVal → List String :=
  List.map (fun v => match v with | .vstr s => s | _ => "")

/-- The `/api/add-files` pipeline after Multer: validation middleware, then
the controller calling `uploadFiles`. On a validation error the repo is
untouched. -/
def uploadEndpoint (cwd : String) (fs : Fs) (hashFn : Buf → String)
    (uuid : Nat → String) (repo : Repo) (files : Option (List MulterFile)) :
    Except ApiError (List FileUploadDto) × Repo :=
  match validateFileUpload files with
  | some e => (.error e, repo)
  | none => uploadFiles cwd fs hashFn uuid repo (files.getD [])

/-- The `/api/load-files` pipeline: validation middleware, then the
controller calling `loadFiles`. -/
def loadEndpoint (fs : Fs) (hashFn : Buf → String) (dirname : String)
    (repo : Repo) (urisField : Option JsVal) :
    Except ApiError (List FileResponseDto) :=
  match validateLoadFilesRequest urisField with
  | some e => .error e
  | none =>
    match urisField with
    | some (.varr elems) => loadFiles fs hashFn dirname repo (jsStrings elems)
    | _ => .error ⟨"URIs não informadas", 400⟩

/-! ## Deployment-shape predicates used by the round-trip theorem -/

/-- A clean path segment: non-empty, no separators, not `.`/`..`. Date
folders (`YYYY-MM-DD`) and Multer-generated stored names are clean. -/
def cleanSeg (s : String) : Bool :=
  s ≠ "" && s.data.all (fun c => c ≠ '/' && c ≠ '\\') && s ≠ "." && s ≠ ".."

/-- An absolute, normalized working directory built from clean segments. -/
def cwdOf (csegs : List String) : String :=
  "/" ++ joinSegs csegs

/-- A file as Multer leaves it for the service: stored under
`<cwd>/public/uploads/<date>/<storedName>`, present on disk, with a
non-empty declared MIME type. -/
def multerPlaced (cwd : String) (fs : Fs) (f : MulterFile) : Prop :=
  ∃ d n, cleanSeg d = true ∧ cleanSeg n = true ∧
    f.path = cwd ++ "/public/uploads/" ++ d ++ "/" ++ n ∧
    (fs f.path).isSome = true ∧ f.mimetype ≠ ""

/-- The repo contents after the upload loop has processed a list of files
(stopping at the first unreadable one): a functional characterization of the
registrations performed by `uploadFilesGo`. -/
def registerList (cwd : String) (fs : Fs) (hashFn : Buf → String)
    (uuid : Nat → String) : Nat → Repo → List MulterFile → Repo
  | _, repo, [] => repo
  | i, repo, f :: rest =>
    match fs f.path with
    | none => repo
    | some buffer => registerList cwd fs hashFn uuid (i + 1)
        (saveFile repo (mkEntity cwd hashFn uuid i f buffer)) rest

/-! ## Basic string lemmas -/

theorem sdata_append (a b : String) : (a ++ b).data = a.data ++ b.data := rfl

theorem str_ext {a b : String} (h : a.data = b.data) : a = b := by
  cases a; cases b; exact congrArg String.mk h

theorem str_mk_data (s : String) : String.mk s.data = s := by
  cases s; rfl

theorem sappend_assoc (a b c : String) : a ++ b ++ c = a ++ (b ++ c) := by
  apply str_ext
  simp [sdata_append, List.append_assoc]

theorem str_ne_empty {s : String} (h : s.data ≠ []) : s ≠ "" := by
  intro hs
  exact h (by simp [hs])

theorem listStartsWith_append (p x : List Char) :
    listStartsWith p (p ++ x) = true := by
  induction p with
  | nil => rfl
  | cons c cs ih => simp [listStartsWith, ih]

theorem dropFirstOccur_append {pat : List Char} (hp : pat ≠ []) (rest : List Char) :
    dropFirstOccur (pat ++ rest) pat = rest := by
  cases pat with
  | nil => exact absurd rfl hp
  | cons c cs =>
    show dropFirstOccur (c :: (cs ++ rest)) (c :: cs) = rest
    rw [dropFirstOccur]
    have h1 : listStartsWith (c :: cs) (c :: (cs ++ rest)) = true := by
      simpa using listStartsWith_append (c :: cs) rest
    simp [h1]

theorem jsReplaceFirstEmpty_append {pat : String} (hp : pat ≠ "") (rest : String) :
    jsReplaceFirstEmpty (pat ++ rest) pat = rest := by
  have hd : pat.data ≠ [] := by
    intro h
    exact hp (str_ext (by simpa using h))
  unfold jsReplaceFirstEmpty
  rw [sdata_append, dropFirstOccur_append hd, str_mk_data]

theorem backslashToSlash_id {s : String} (h : ∀ c ∈ s.data, c ≠ '\\') :
    backslashToSlash s = s := by
  unfold backslashToSlash
  rw [List.map_congr_left (fun c hc => if_neg (h c hc)), List.map_id', str_mk_data]

theorem filter_ne_empty_of_all {l : List String} (h : ∀ p ∈ l, p ≠ "") :
    l.filter (fun p => p ≠ "") = l := by
  induction l with
  | nil => rfl
  | cons a t ih =>
    have ha : a ≠ "" := h a (by simp)
    simp only [List.filter_cons]
    rw [if_pos (by simpa using ha), ih (fun p hp => h p (by simp [hp]))]

/-! ## Lemmas about path splitting -/

theorem csplit_ne_nil (l : List Char) : csplit l ≠ [] := by
  induction l with
  | nil => simp [csplit]
  | cons c r ih =>
    rw [csplit]
    by_cases hc : c = '/'
    · simp [hc]
    · rw [if_neg hc]
      cases hrec : csplit r with
      | nil => exact absurd hrec ih
      | cons s ss => simp

theorem csplit_append_slash (a b : List Char) :
    csplit (a ++ '/' :: b) = csplit a ++ csplit b := by
  induction a with
  | nil => simp [csplit]
  | cons c r ih =>
    by_cases hc : c = '/'
    · subst hc
      simp [List.cons_append, csplit, ih]
    · rw [List.cons_append, csplit, if_neg hc, csplit, if_neg hc]
      cases hrec : csplit r with
      | nil => exact absurd hrec (csplit_ne_nil r)
      | cons s ss => rw [ih, hrec]; simp

theorem csplit_no_slash {l : List Char} (h : ∀ c ∈ l, c ≠ '/') :
    csplit l = [l] := by
  induction l with
  | nil => rfl
  | cons c r ih =>
    have hc : c ≠ '/' := h c (List.mem_cons_self c r)
    have ht : ∀ x ∈ r, x ≠ '/' := fun x hx => h x (List.mem_cons_of_mem c hx)
    rw [csplit, if_neg hc, ih ht]

theorem splitPath_append (a b : String) :
    splitPath (a ++ "/" ++ b) = splitPath a ++ splitPath b := by
  unfold splitPath
  have : (a ++ "/" ++ b).data = a.data ++ '/' :: b.data := by
    simp [sdata_append]
  rw [this, csplit_append_slash, List.map_append, List.filter_append]

theorem splitPath_clean {s : String} (h : cleanSeg s = true) : splitPath s = [s] := by
  unfold cleanSeg at h
  simp only [Bool.and_eq_true, decide_eq_true_eq, List.all_eq_true] at h
  obtain ⟨⟨⟨hne, hsl⟩, _⟩, _⟩ := h
  unfold splitPath
  rw [csplit_no_slash (fun c hc => by simpa using (hsl c hc).1)]
  simp [str_mk_data, hne]

theorem splitPath_slash_prepend (s : String) : splitPath ("/" ++ s) = splitPath s := by
  unfold splitPath
  have : ("/" ++ s).data = '/' :: s.data := rfl
  rw [this, csplit, if_pos rfl]
  simp

theorem joinSegs_append {l1 l2 : List String} (h1 : l1 ≠ []) (h2 : l2 ≠ []) :
    joinSegs (l1 ++ l2) = joinSegs l1 ++ "/" ++ joinSegs l2 := by
  induction l1 with
  | nil => exact absurd rfl h1
  | cons a t ih =>
    cases t with
    | nil =>
      cases l2 with
      | nil => exact absurd rfl h2
      | cons b u => simp [joinSegs]
    | cons a' t' =>
      have step : joinSegs (a :: a' :: t') = a ++ "/" ++ joinSegs (a' :: t') := rfl
      have step2 : joinSegs (a :: (a' :: t' ++ l2)) = a ++ "/" ++ joinSegs (a' :: t' ++ l2) := by
        cases l2 with
        | nil => exact absurd rfl h2
        | cons b u => rfl
      rw [List.cons_append, step2, ih (by simp), step]
      apply str_ext
      simp [sdata_append, List.append_assoc]

theorem splitPath_joinSegs {l : List String} (h : ∀ s ∈ l, cleanSeg s = true) :
    splitPath (joinSegs l) = l := by
  induction l with
  | nil => rfl
  | cons a t ih =>
    cases t with
    | nil => exact splitPath_clean (h a (by simp))
    | cons a' t' =>
      have step : joinSegs (a :: a' :: t') = a ++ "/" ++ joinSegs (a' :: t') := rfl
      rw [step, splitPath_append, splitPath_clean (h a (by simp)),
        ih (fun s hs => h s (by simp at hs ⊢; tauto))]
      rfl

/-! ## Lemmas about path normalization -/

theorem stepSeg_clean (ab : Bool) (acc : List String) {s : String}
    (h : cleanSeg s = true) : stepSeg ab acc s = s :: acc := by
  unfold cleanSeg at h
  simp only [Bool.and_eq_true, decide_eq_true_eq] at h
  unfold stepSeg
  rw [if_neg h.1.2, if_neg h.2]

theorem stepSeg_pop (ab : Bool) {top : String} (acc : List String)
    (h : top ≠ "..") : stepSeg ab (top :: acc) ".." = acc := by
  unfold stepSeg
  rw [if_neg (by decide), if_pos rfl]
  simp [h]

theorem foldl_stepSeg_clean (ab : Bool) {l : List String}
    (h : ∀ s ∈ l, cleanSeg s = true) (acc : List String) :
    l.foldl (stepSeg ab) acc = l.reverse ++ acc := by
  induction l generalizing acc with
  | nil => simp
  | cons a t ih =>
    rw [List.foldl_cons, stepSeg_clean ab acc (h a (by simp)),
      ih (fun s hs => h s (by simp [hs]))]
    simp

theorem foldl_pop3 (ab : Bool) {a b c : String} (acc : List String)
    (ha : a ≠ "..") (hb : b ≠ "..") (hc : c ≠ "..") :
    List.foldl (stepSeg ab) (a :: b :: c :: acc) ["..", "..", ".."] = acc := by
  rw [List.foldl_cons, stepSeg_pop ab _ ha, List.foldl_cons, stepSeg_pop ab _ hb,
    List.foldl_cons, stepSeg_pop ab _ hc, List.foldl_nil]

theorem listStartsWith_slash {l : List Char} :
    listStartsWith ("/".data) ('/' :: l) = true := by
  simp [listStartsWith]

theorem slash_data : ("/" : String).data = ['/'] := rfl

theorem cleanSeg_ne {s : String} (h : cleanSeg s = true) :
    s ≠ "" ∧ (∀ c ∈ s.data, c ≠ '/' ∧ c ≠ '\\') ∧ s ≠ "." ∧ s ≠ ".." := by
  unfold cleanSeg at h
  simp only [Bool.and_eq_true, decide_eq_true_eq, List.all_eq_true] at h
  refine ⟨h.1.1.1, fun c hc => ?_, h.1.2, h.2⟩
  have := h.1.1.2 c hc
  simpa using this

theorem jsStartsWith_slash_append (y : String) : jsStartsWith ("/" ++ y) "/" = true := by
  unfold jsStartsWith
  rw [show ("/" ++ y).data = '/' :: y.data from rfl]
  exact listStartsWith_slash

theorem getFullPath_multer (csegs : List String) (d n : String)
    (hcs : csegs ≠ []) (hcl : ∀ s ∈ csegs, cleanSeg s = true)
    (hd : cleanSeg d = true) (hn : cleanSeg n = true) :
    getFullPath (cwdOf csegs ++ "/src/infrastructure/storage")
        ("/uploads/" ++ d ++ "/" ++ n)
      = cwdOf csegs ++ "/public/uploads/" ++ d ++ "/" ++ n := by
  have hcwd_data : (cwdOf csegs).data = '/' :: (joinSegs csegs).data := by
    simp [cwdOf, sdata_append, slash_data]
  -- uri starts with "/uploads/"
  have huri_data : ("/uploads/" ++ d ++ "/" ++ n).data
      = "/uploads/".data ++ (d.data ++ '/' :: n.data) := by
    simp [sdata_append, slash_data]
  have hstart : jsStartsWith ("/uploads/" ++ d ++ "/" ++ n) "/uploads/" = true := by
    unfold jsStartsWith
    rw [huri_data]
    exact listStartsWith_append _ _
  rw [getFullPath, if_pos hstart]
  -- name the parts
  have hdir_ne : cwdOf csegs ++ "/src/infrastructure/storage" ≠ "" := by
    apply str_ne_empty
    simp [sdata_append, hcwd_data]
  have hm_ne : ("../../../public" : String) ≠ "" := by decide
  have huri_ne : ("/uploads/" ++ d ++ "/" ++ n) ≠ "" := by
    apply str_ne_empty
    rw [huri_data]
    simp
  have hfilter : [cwdOf csegs ++ "/src/infrastructure/storage", "../../../public",
      "/uploads/" ++ d ++ "/" ++ n].filter (fun p => p ≠ "") =
      [cwdOf csegs ++ "/src/infrastructure/storage", "../../../public",
        "/uploads/" ++ d ++ "/" ++ n] := by
    apply filter_ne_empty_of_all
    intro p hp
    simp only [List.mem_cons, List.not_mem_nil, or_false] at hp
    rcases hp with h | h | h <;> subst h
    · exact hdir_ne
    · exact hm_ne
    · exact huri_ne
  simp only [pathJoin, hfilter]
  rw [show joinSegs [cwdOf csegs ++ "/src/infrastructure/storage", "../../../public",
      "/uploads/" ++ d ++ "/" ++ n] =
    (cwdOf csegs ++ "/src/infrastructure/storage") ++ "/" ++
      ("../../../public" ++ "/" ++ ("/uploads/" ++ d ++ "/" ++ n)) from rfl]
  have habs : jsStartsWith ((cwdOf csegs ++ "/src/infrastructure/storage") ++ "/" ++
      ("../../../public" ++ "/" ++ ("/uploads/" ++ d ++ "/" ++ n))) "/" = true := by
    have hshape : (cwdOf csegs ++ "/src/infrastructure/storage") ++ "/" ++
        ("../../../public" ++ "/" ++ ("/uploads/" ++ d ++ "/" ++ n)) =
        "/" ++ (joinSegs csegs ++ ("/src/infrastructure/storage" ++
          ("/" ++ ("../../../public" ++ "/" ++ ("/uploads/" ++ d ++ "/" ++ n))))) := by
      apply str_ext
      simp [cwdOf, sdata_append, List.append_assoc]
    rw [hshape]
    exact jsStartsWith_slash_append _
  rw [habs, if_pos rfl]
  have hsplit : splitPath (cwdOf csegs ++ "/src/infrastructure/storage" ++ "/" ++
      ("../../../public" ++ "/" ++ ("/uploads/" ++ d ++ "/" ++ n))) =
      csegs ++ ("src" :: "infrastructure" :: "storage" :: ".." :: ".." :: ".." ::
        "public" :: "uploads" :: d :: n :: []) := by
    rw [splitPath_append, splitPath_append]
    rw [show (cwdOf csegs ++ "/src/infrastructure/storage") =
        cwdOf csegs ++ "/" ++ "src/infrastructure/storage" from by
      apply str_ext
      simp [sdata_append, List.append_assoc]]
    rw [splitPath_append]
    rw [cwdOf, splitPath_slash_prepend, splitPath_joinSegs hcl]
    rw [show splitPath "src/infrastructure/storage" = ["src", "infrastructure", "storage"] from rfl]
    rw [show splitPath "../../../public" = ["..", "..", "..", "public"] from rfl]
    rw [splitPath_append]
    rw [show ("/uploads/" : String) = "/uploads" ++ "/" from by decide]
    rw [splitPath_append]
    rw [show splitPath "/uploads" = ["uploads"] from rfl, splitPath_clean hd, splitPath_clean hn]
    simp [List.append_assoc]
  rw [hsplit]
  have hfold : (csegs ++ ["src", "infrastructure", "storage", "..", "..", "..",
      "public", "uploads", d, n]).foldl (stepSeg true) [] =
      n :: d :: "uploads" :: "public" :: csegs.reverse := by
    rw [List.foldl_append, foldl_stepSeg_clean true hcl]
    simp only [List.append_nil]
    rw [List.foldl_cons, stepSeg_clean true _ (by decide)]
    rw [List.foldl_cons, stepSeg_clean true _ (by decide)]
    rw [List.foldl_cons, stepSeg_clean true _ (by decide)]
    rw [List.foldl_cons, stepSeg_pop true _ (by decide)]
    rw [List.foldl_cons, stepSeg_pop true _ (by decide)]
    rw [List.foldl_cons, stepSeg_pop true _ (by decide)]
    rw [List.foldl_cons, stepSeg_clean true _ (by decide)]
    rw [List.foldl_cons, stepSeg_clean true _ (by decide)]
    rw [List.foldl_cons, stepSeg_clean true _ hd]
    rw [List.foldl_cons, stepSeg_clean true _ hn]
    rw [List.foldl_nil]
  rw [normSegs, hfold]
  rw [show (n :: d :: "uploads" :: "public" :: csegs.reverse).reverse =
      csegs ++ ["public", "uploads", d, n] from by
    simp]
  rw [joinSegs_append hcs (by simp)]
  rw [show joinSegs ["public", "uploads", d, n] =
      "public" ++ "/" ++ ("uploads" ++ "/" ++ (d ++ "/" ++ n)) from rfl]
  rw [show ("/public/uploads/" : String) = "/" ++ "public" ++ "/" ++ "uploads" ++ "/" from by decide]
  apply str_ext
  simp [cwdOf, sdata_append, List.append_assoc]

/-! ## Lemmas about the upload loop -/

theorem uploadFilesGo_snd (cwd : String) (fs : Fs) (hashFn : Buf → String)
    (uuid : Nat → String) (i : Nat) (repo : Repo) (files : List MulterFile) :
    (uploadFilesGo cwd fs hashFn uuid i repo files).2 =
      registerList cwd fs hashFn uuid i repo files := by
  induction files generalizing i repo with
  | nil => rfl
  | cons f rest ih =>
    rw [uploadFilesGo, registerList]
    cases hfs : fs f.path with
    | none => simp [readFile, hfs]
    | some buffer =>
      simp only [readFile, hfs]
      cases hrec : uploadFilesGo cwd fs hashFn uuid (i + 1)
          (saveFile repo (mkEntity cwd hashFn uuid i f buffer)) rest with
      | mk r repo2 =>
        cases r with
        | ok dtos => simpa [hrec] using (by rw [← ih (i + 1) (saveFile repo (mkEntity cwd hashFn uuid i f buffer)), hrec] : _)
        | error e => simpa [hrec] using (by rw [← ih (i + 1) (saveFile repo (mkEntity cwd hashFn uuid i f buffer)), hrec] : _)

theorem uploadFilesGo_ok_of_readable (cwd : String) (fs : Fs) (hashFn : Buf → String)
    (uuid : Nat → String) (i : Nat) (repo : Repo) {files : List MulterFile}
    (h : ∀ f ∈ files, (fs f.path).isSome = true) :
    uploadFilesGo cwd fs hashFn uuid i repo files =
      (.ok (files.map (fun f => ⟨f.mimetype, mkUri cwd f.path, f.originalname⟩)),
        registerList cwd fs hashFn uuid i repo files) := by
  induction files generalizing i repo with
  | nil => rfl
  | cons f rest ih =>
    have hf := h f (by simp)
    cases hfs : fs f.path with
    | none => rw [hfs] at hf; simp at hf
    | some buffer =>
      rw [uploadFilesGo, registerList]
      simp only [readFile, hfs]
      rw [ih (i + 1) _ (fun g hg => h g (by simp [hg]))]
      simp [mkEntity, mkUri]

theorem uploadFilesGo_ok_dtos (cwd : String) (fs : Fs) (hashFn : Buf → String)
    (uuid : Nat → String) {i : Nat} {repo repo' : Repo} {files : List MulterFile}
    {dtos : List FileUploadDto}
    (h : uploadFilesGo cwd fs hashFn uuid i repo files = (.ok dtos, repo')) :
    dtos = files.map (fun f => ⟨f.mimetype, mkUri cwd f.path, f.originalname⟩) := by
  induction files generalizing i repo dtos repo' with
  | nil =>
    rw [uploadFilesGo] at h
    simp only [Prod.mk.injEq, Except.ok.injEq] at h
    exact h.1.symm
  | cons f rest ih =>
    rw [uploadFilesGo] at h
    cases hfs : fs f.path with
    | none => simp [readFile, hfs] at h
    | some buffer =>
      simp only [readFile, hfs] at h
      cases hrec : uploadFilesGo cwd fs hashFn uuid (i + 1)
          (saveFile repo (mkEntity cwd hashFn uuid i f buffer)) rest with
      | mk r repo2 =>
        cases r with
        | ok dtos' =>
          rw [hrec] at h
          simp only [Prod.mk.injEq, Except.ok.injEq] at h
          rw [List.map_cons, ← h.1]
          simp [mkEntity, ih hrec]
        | error e =>
          rw [hrec] at h
          simp at h

theorem uploadFilesGo_error_of_bad (cwd : String) (fs : Fs) (hashFn : Buf → String)
    (uuid : Nat → String) (i : Nat) (repo : Repo) {pre : List MulterFile}
    (bad : MulterFile) (rest : List MulterFile)
    (hpre : ∀ f ∈ pre, (fs f.path).isSome = true) (hbad : fs bad.path = none) :
    uploadFilesGo cwd fs hashFn uuid i repo (pre ++ bad :: rest) =
      (.error ⟨"Arquivo não encontrado: " ++ pathBasename bad.path, 404⟩,
        registerList cwd fs hashFn uuid i repo pre) := by
  induction pre generalizing i repo with
  | nil =>
    rw [List.nil_append, uploadFilesGo, registerList]
    simp [readFile, hbad]
  | cons f t ih =>
    have hf := hpre f (by simp)
    cases hfs : fs f.path with
    | none => rw [hfs] at hf; simp at hf
    | some buffer =>
      rw [List.cons_append, uploadFilesGo, registerList]
      simp only [readFile, hfs]
      rw [ih (i + 1) _ (fun g hg => hpre g (by simp [hg]))]

theorem registerList_preserve (cwd : String) (fs : Fs) (hashFn : Buf → String)
    (uuid : Nat → String) (i : Nat) (repo : Repo) {files : List MulterFile}
    {u : String} (h : ∀ f ∈ files, mkUri cwd f.path ≠ u) :
    registerList cwd fs hashFn uuid i repo files u = repo u := by
  induction files generalizing i repo with
  | nil => rfl
  | cons f rest ih =>
    rw [registerList]
    cases hfs : fs f.path with
    | none => simp [hfs]
    | some buffer =>
      simp only [hfs]
      rw [ih (i + 1) _ (fun g hg => h g (by simp [hg]))]
      unfold saveFile
      rw [if_neg]
      intro hu
      exact h f (by simp) (by simpa [mkEntity] using hu.symm)

theorem registerList_lookup (cwd : String) (fs : Fs) (hashFn : Buf → String)
    (uuid : Nat → String) (i : Nat) (repo : Repo) {l1 : List MulterFile}
    (f : MulterFile) (l2 : List MulterFile) {B : Buf}
    (h1 : ∀ g ∈ l1, (fs g.path).isSome = true) (hB : fs f.path = some B)
    (h2 : ∀ g ∈ l2, mkUri cwd g.path ≠ mkUri cwd f.path) :
    registerList cwd fs hashFn uuid i repo (l1 ++ f :: l2) (mkUri cwd f.path) =
      some (mkEntity cwd hashFn uuid (i + l1.length) f B) := by
  induction l1 generalizing i repo with
  | nil =>
    rw [List.nil_append, registerList]
    simp only [hB]
    rw [registerList_preserve cwd fs hashFn uuid _ _ h2]
    simp [saveFile, mkEntity]
  | cons g t ih =>
    have hg := h1 g (by simp)
    cases hfs : fs g.path with
    | none => rw [hfs] at hg; simp at hg
    | some buffer =>
      rw [List.cons_append, registerList]
      simp only [hfs]
      rw [ih (i + 1) _ (fun x hx => h1 x (by simp [hx]))]
      simp only [List.length_cons]
      ring_nf

/-! ## Lemmas about the load pipeline -/

theorem loadFiles_any_missing (fs : Fs) (hashFn : Buf → String) (dirname : String)
    (repo : Repo) {uris : List String} (h : ∃ u ∈ uris, repo u = none) :
    loadFiles fs hashFn dirname repo uris =
      .error ⟨"Um ou mais arquivos não foram encontrados", 400⟩ := by
  obtain ⟨u, hu, hnone⟩ := h
  unfold loadFiles getFilesByUris
  rw [if_pos]
  apply List.any_eq_true.mpr
  exact ⟨repo u, List.mem_map_of_mem repo hu, by simp [hnone]⟩

theorem loadFiles_all_resolved (fs : Fs) (hashFn : Buf → String) (dirname : String)
    (repo : Repo) {uris : List String} (h : ∀ u ∈ uris, (repo u).isSome = true) :
    loadFiles fs hashFn dirname repo uris =
      loadFilesGo fs hashFn dirname (uris.map repo) := by
  unfold loadFiles getFilesByUris
  rw [if_neg]
  intro hany
  obtain ⟨o, ho, hno⟩ := List.any_eq_true.mp hany
  obtain ⟨u, hu, rfl⟩ := List.mem_map.mp ho
  have := h u hu
  simp at hno
  rw [hno] at this
  simp at this

theorem loadOne_ok (fs : Fs) (hashFn : Buf → String) (dirname : String)
    (fe : FileEnt) {B : Buf} (hfs : fs (getFullPath dirname fe.uri) = some B)
    (hh : jsTruthyStrOpt fe.hash = false ∨ fe.hash = some (hashFn B)) :
    loadOne fs hashFn dirname fe =
      .ok ⟨⟨"Buffer", B⟩, jsOrStr fe.mimeType (getMimeType (getFullPath dirname fe.uri))⟩ := by
  have hex : fileExists fs (getFullPath dirname fe.uri) = true := by
    unfold fileExists
    rw [hfs]
    rfl
  simp only [loadOne, getFile, hex, Bool.true_eq_false, if_false, readFile, hfs]
  have hcond : (jsTruthyStrOpt fe.hash &&
      !verifyFileIntegrity fs hashFn (getFullPath dirname fe.uri) fe.hash) = false := by
    rcases hh with h | h
    · rw [h]; rfl
    · cases he : jsTruthyStrOpt fe.hash with
      | false => rfl
      | true =>
        have hver : verifyFileIntegrity fs hashFn (getFullPath dirname fe.uri) fe.hash = true := by
          unfold verifyFileIntegrity
          rw [readFile, hfs]
          simp only [he, calculateHash]
          rw [h]
          simp
        rw [hver]
        rfl
  rw [hcond]
  simp [bufferToArray]

theorem loadOne_integrity_fail (fs : Fs) (hashFn : Buf → String) (dirname : String)
    (fe : FileEnt) {B : Buf} (hfs : fs (getFullPath dirname fe.uri) = some B)
    (ht : jsTruthyStrOpt fe.hash = true) (hmm : hashFn B ≠ fe.hash.getD "") :
    loadOne fs hashFn dirname fe =
      .error ⟨"Falha na verificação de integridade do arquivo: " ++ fe.uri, 400⟩ := by
  have hex : fileExists fs (getFullPath dirname fe.uri) = true := by
    unfold fileExists
    rw [hfs]
    rfl
  simp only [loadOne, getFile, hex, Bool.true_eq_false, if_false, readFile, hfs]
  have hver : verifyFileIntegrity fs hashFn (getFullPath dirname fe.uri) fe.hash = false := by
    unfold verifyFileIntegrity
    rw [readFile, hfs]
    simp only [ht, calculateHash]
    simp [hmm]
  rw [ht, hver]
  rfl

theorem loadOne_cases (fs : Fs) (hashFn : Buf → String) (dirname : String)
    (fe : FileEnt) {B : Buf} (hfs : fs (getFullPath dirname fe.uri) = some B) :
    loadOne fs hashFn dirname fe =
        .error ⟨"Falha na verificação de integridade do arquivo: " ++ fe.uri, 400⟩ ∨
      ∃ r, loadOne fs hashFn dirname fe = .ok r := by
  have hex : fileExists fs (getFullPath dirname fe.uri) = true := by
    unfold fileExists
    rw [hfs]
    rfl
  simp only [loadOne, getFile, hex, Bool.true_eq_false, if_false, readFile, hfs]
  cases hcond : (jsTruthyStrOpt fe.hash &&
      !verifyFileIntegrity fs hashFn (getFullPath dirname fe.uri) fe.hash) with
  | true => left; rfl
  | false => right; exact ⟨_, rfl⟩

theorem loadFilesGo_integrity_error (fs : Fs) (hashFn : Buf → String)
    (dirname : String) {ofiles : List (Option FileEnt)}
    (hall : ∀ fe : FileEnt, some fe ∈ ofiles →
      ∃ B, fs (getFullPath dirname fe.uri) = some B)
    (hbad : ∃ fe : FileEnt, some fe ∈ ofiles ∧ jsTruthyStrOpt fe.hash = true ∧
      ∃ B, fs (getFullPath dirname fe.uri) = some B ∧ hashFn B ≠ fe.hash.getD "") :
    ∃ fe : FileEnt, some fe ∈ ofiles ∧ loadFilesGo fs hashFn dirname ofiles =
      .error ⟨"Falha na verificação de integridade do arquivo: " ++ fe.uri, 400⟩ := by
  induction ofiles with
  | nil =>
    obtain ⟨fe, hmem, _⟩ := hbad
    simp at hmem
  | cons o rest ih =>
    cases o with
    | none =>
      obtain ⟨fe, hmem, h1, h2⟩ := hbad
      have hmem' : some fe ∈ rest := by simpa using hmem
      obtain ⟨fe', hm', herr⟩ := ih (fun g hg => hall g (by simp [hg])) ⟨fe, hmem', h1, h2⟩
      exact ⟨fe', by simp [hm'], by rw [loadFilesGo]; exact herr⟩
    | some g =>
      obtain ⟨B, hB⟩ := hall g (by simp)
      rcases loadOne_cases fs hashFn dirname g hB with herr | ⟨r, hok⟩
      · refine ⟨g, by simp, ?_⟩
        rw [loadFilesGo]
        simp only [herr]
      · obtain ⟨fe, hmem, ht, B', hB', hne⟩ := hbad
        have hmem' : some fe ∈ rest := by
          rcases List.mem_cons.mp hmem with heq | h
          · exfalso
            have hfe : fe = g := by simpa using heq
            subst hfe
            have hfail := loadOne_integrity_fail fs hashFn dirname fe hB' ht hne
            rw [hfail] at hok
            simp at hok
          · exact h
        obtain ⟨fe', hm', herr⟩ := ih (fun x hx => hall x (by simp [hx]))
          ⟨fe, hmem', ht, B', hB', hne⟩
        refine ⟨fe', by simp [hm'], ?_⟩
        rw [loadFilesGo]
        simp only [hok, herr]

theorem loadFilesGo_ok_of_clean (fs : Fs) (hashFn : Buf → String)
    (dirname : String) {ofiles : List (Option FileEnt)}
    (h : ∀ fe : FileEnt, some fe ∈ ofiles → jsTruthyStrOpt fe.hash = false ∧
      ∃ B, fs (getFullPath dirname fe.uri) = some B) :
    ∃ rs, loadFilesGo fs hashFn dirname ofiles = .ok rs := by
  induction ofiles with
  | nil => exact ⟨[], rfl⟩
  | cons o rest ih =>
    cases o with
    | none =>
      obtain ⟨rs, hrs⟩ := ih (fun x hx => h x (by simp [hx]))
      exact ⟨rs, by rw [loadFilesGo]; exact hrs⟩
    | some g =>
      obtain ⟨ht, B, hB⟩ := h g (by simp)
      have hok := loadOne_ok fs hashFn dirname g hB (Or.inl ht)
      obtain ⟨rs, hrs⟩ := ih (fun x hx => h x (by simp [hx]))
      refine ⟨⟨⟨"Buffer", B⟩,
        jsOrStr g.mimeType (getMimeType (getFullPath dirname g.uri))⟩ :: rs, ?_⟩
      rw [loadFilesGo]
      simp only [hok, hrs]

/-! ## The uri recorded at ingestion -/

theorem pathJoin_cwd_public (csegs : List String) (hcs : csegs ≠ [])
    (hcl : ∀ s ∈ csegs, cleanSeg s = true) :
    pathJoin [cwdOf csegs, "public"] = cwdOf csegs ++ "/public" := by
  have hcwd_ne : cwdOf csegs ≠ "" := by
    apply str_ne_empty
    rw [show (cwdOf csegs).data = '/' :: (joinSegs csegs).data from by
      simp [cwdOf, sdata_append]]
    simp
  have hfilter : [cwdOf csegs, "public"].filter (fun p => p ≠ "") =
      [cwdOf csegs, "public"] := by
    apply filter_ne_empty_of_all
    intro p hp
    simp only [List.mem_cons, List.not_mem_nil, or_false] at hp
    rcases hp with h | h <;> subst h
    · exact hcwd_ne
    · decide
  simp only [pathJoin, hfilter]
  rw [show joinSegs [cwdOf csegs, "public"] = cwdOf csegs ++ "/" ++ "public" from rfl]
  have habs : jsStartsWith (cwdOf csegs ++ "/" ++ "public") "/" = true := by
    have hshape : cwdOf csegs ++ "/" ++ "public" =
        "/" ++ (joinSegs csegs ++ ("/" ++ "public")) := by
      apply str_ext
      simp [cwdOf, sdata_append, List.append_assoc]
    rw [hshape]
    exact jsStartsWith_slash_append _
  rw [habs, if_pos rfl]
  have hsplit : splitPath (cwdOf csegs ++ "/" ++ "public") = csegs ++ ["public"] := by
    rw [splitPath_append, cwdOf, splitPath_slash_prepend, splitPath_joinSegs hcl]
    rfl
  rw [hsplit, normSegs, foldl_stepSeg_clean true (by
    intro s hs
    rcases List.mem_append.mp hs with h | h
    · exact hcl s h
    · simp only [List.mem_singleton] at h
      subst h
      decide)]
  simp only [List.append_nil, List.reverse_append, List.reverse_reverse]
  rw [joinSegs_append hcs (by simp)]
  rw [show ("/public" : String) = "/" ++ "public" from by decide]
  apply str_ext
  simp [cwdOf, sdata_append, List.append_assoc, joinSegs]

theorem mkUri_multer (csegs : List String) (d n : String) (hcs : csegs ≠ [])
    (hcl : ∀ s ∈ csegs, cleanSeg s = true)
    (hd : cleanSeg d = true) (hn : cleanSeg n = true) :
    mkUri (cwdOf csegs) (cwdOf csegs ++ "/public/uploads/" ++ d ++ "/" ++ n) =
      "/uploads/" ++ d ++ "/" ++ n := by
  unfold mkUri
  rw [pathJoin_cwd_public csegs hcs hcl]
  have hsplit : cwdOf csegs ++ "/public/uploads/" ++ d ++ "/" ++ n =
      (cwdOf csegs ++ "/public") ++ ("/uploads/" ++ d ++ "/" ++ n) := by
    rw [show ("/public/uploads/" : String) = "/public" ++ "/uploads/" from by decide]
    apply str_ext
    simp [sdata_append, List.append_assoc]
  rw [hsplit]
  have hpat_ne : cwdOf csegs ++ "/public" ≠ "" := by
    apply str_ne_empty
    rw [show (cwdOf csegs ++ "/public").data =
      '/' :: ((joinSegs csegs).data ++ "/public".data) from by
        simp [cwdOf, sdata_append]]
    simp
  rw [jsReplaceFirstEmpty_append hpat_ne]
  apply backslashToSlash_id
  intro c hc
  rw [show ("/uploads/" ++ d ++ "/" ++ n).data =
      "/uploads/".data ++ (d.data ++ '/' :: n.data) from by simp [sdata_append]] at hc
  rcases List.mem_append.mp hc with h | h
  · have hlit : ∀ x ∈ "/uploads/".data, x ≠ '\\' := by decide
    exact hlit c h
  · have hdc := cleanSeg_ne hd
    have hnc := cleanSeg_ne hn
    rcases (by simpa using h : c ∈ d.data ∨ c = '/' ∨ c ∈ n.data) with h2 | h2 | h2
    · exact (hdc.2.1 c h2).2
    · subst h2; decide
    · exact (hnc.2.1 c h2).2

/-! ## Claim theorems -/

/-- C2: for every retrieval batch, if any requested uri does not resolve in
the artifact index, `loadFiles` fails the entire request with the not-found
error (status 400, "Um ou mais arquivos não foram encontrados") and returns
no entries at all — in particular no `.ok` result for the resolvable uris. -/
theorem c2_all_or_nothing_retrieval (fs : Fs) (hashFn : Buf → String)
    (dirname : String) (repo : Repo) (uris : List String)
    (h : ∃ u ∈ uris, repo u = none) :
    loadFiles fs hashFn dirname repo uris =
      .error ⟨"Um ou mais arquivos não foram encontrados", 400⟩ ∧
    ∀ rs, loadFiles fs hashFn dirname repo uris ≠ .ok rs := by
  have he := loadFiles_any_missing fs hashFn dirname repo h
  refine ⟨he, fun rs hok => ?_⟩
  rw [he] at hok
  exact Except.noConfusion hok

/-- Witness for C2: a batch `[valid, invalid, valid2]` in a concrete index
fails entirely with the not-found error. -/
theorem c2_witness :
    loadFiles (fun _ => some [1]) (fun _ => "h")
        "/app/src/infrastructure/storage"
        (fun u => if u = "/uploads/2024-01-01/a.txt" ∨ u = "/uploads/2024-01-01/b.txt"
          then some ⟨"id", "a", "a", "p", u, "text/plain", 1, none⟩ else none)
        ["/uploads/2024-01-01/a.txt", "/uploads/2024-01-01/missing.txt",
          "/uploads/2024-01-01/b.txt"] =
      .error ⟨"Um ou mais arquivos não foram encontrados", 400⟩ :=
  (c2_all_or_nothing_retrieval _ _ _ _ _
    ⟨"/uploads/2024-01-01/missing.txt", by simp, by simp⟩).1

/-- C4: a successful ingestion batch yields exactly one response entry per
input item, and the i-th entry's name, type and uri all come from the i-th
input file, for every batch size. -/
theorem c4_order_preservation (cwd : String) (fs : Fs) (hashFn : Buf → String)
    (uuid : Nat → String) (repo : Repo) (files : List MulterFile)
    (dtos : List FileUploadDto)
    (h : (uploadFiles cwd fs hashFn uuid repo files).1 = .ok dtos) :
    dtos.length = files.length ∧
    ∀ i (hi : i < files.length) (hi2 : i < dtos.length),
      (dtos.get ⟨i, hi2⟩).name = (files.get ⟨i, hi⟩).originalname ∧
      (dtos.get ⟨i, hi2⟩).type = (files.get ⟨i, hi⟩).mimetype ∧
      (dtos.get ⟨i, hi2⟩).uri = mkUri cwd (files.get ⟨i, hi⟩).path := by
  rcases hup : uploadFiles cwd fs hashFn uuid repo files with ⟨r, repo2⟩
  rw [hup] at h
  simp only at h
  subst h
  have hdtos := uploadFilesGo_ok_dtos cwd fs hashFn uuid hup
  subst hdtos
  refine ⟨by simp, ?_⟩
  intro i hi hi2
  simp

/-- Witness for C4: a concrete three-file batch uploads in order — the
second response entry carries the second input's name. -/
theorem c4_witness :
    (([⟨"text/plain", "/uploads/2024-01-01/sa", "a.txt"⟩,
       ⟨"image/png", "/uploads/2024-01-01/sb", "b.png"⟩,
       ⟨"application/pdf", "/uploads/2024-01-01/sc", "c.pdf"⟩] :
        List FileUploadDto).get ⟨1, by decide⟩).name = "b.png" :=
  ((c4_order_preservation "/app" (fun _ => some [7]) (fun _ => "h")
      (fun _ => "u") (fun _ => none)
      [⟨"a.txt", "sa", "/app/public/uploads/2024-01-01/sa", "text/plain", 1⟩,
       ⟨"b.png", "sb", "/app/public/uploads/2024-01-01/sb", "image/png", 1⟩,
       ⟨"c.pdf", "sc", "/app/public/uploads/2024-01-01/sc", "application/pdf", 1⟩]
      [⟨"text/plain", "/uploads/2024-01-01/sa", "a.txt"⟩,
       ⟨"image/png", "/uploads/2024-01-01/sb", "b.png"⟩,
       ⟨"application/pdf", "/uploads/2024-01-01/sc", "c.pdf"⟩]
      rfl).2 1 (by decide) (by decide)).1

/-- C6: `getMimeType` is a pure function of the lowercased extension: the
two concrete inferences required by the spec hold, two paths with the same
case-insensitive extension always get the same MIME type, and any extension
outside the static table maps to the generic binary type. -/
theorem c6_mime_inference :
    getMimeType "report.PDF" = "application/pdf" ∧
    getMimeType "data.unknownext" = "application/octet-stream" ∧
    (∀ p q : String, toLowerStr (extname p) = toLowerStr (extname q) →
      getMimeType p = getMimeType q) ∧
    (∀ p : String, mimeTypesTable.lookup (toLowerStr (extname p)) = none →
      getMimeType p = "application/octet-stream") := by
  refine ⟨rfl, rfl, ?_, ?_⟩
  · intro p q h
    simp only [getMimeType, h]
  · intro p h
    simp only [getMimeType, h]

/-- Witness for C6: the case-insensitivity clause applied at concrete paths. -/
theorem c6_witness : getMimeType "a.TxT" = getMimeType "b.txt" :=
  c6_mime_inference.2.2.1 "a.TxT" "b.txt" rfl

/-- C9 counterexample: the claim says verification succeeds for *every*
path when no digest is supplied, but `verifyFileIntegrity` first reads the
blob and returns `false` on any read failure — so it is `false`, not
`true`, at a path with no file even with no expected digest. -/
theorem c9_counterexample :
    verifyFileIntegrity (fun _ => none) (fun _ => "deadbeef") "missing.txt" none
      = false := rfl

/-- C9 (amended): when the blob at `path` is readable, verification with no
digest (or the JS-falsy empty digest) returns `true`, and with a non-empty
digest it returns exactly whether the recomputed hash equals it; when the
blob is unreadable it returns `false` regardless of the digest. -/
theorem c9_verify_integrity_amended (fs : Fs) (hashFn : Buf → String)
    (p : String) (B : Buf) (hB : fs p = some B) (h : String) (hne : h ≠ "") :
    verifyFileIntegrity fs hashFn p none = true ∧
    verifyFileIntegrity fs hashFn p (some "") = true ∧
    verifyFileIntegrity fs hashFn p (some h) = (hashFn B == h) ∧
    (∀ q, fs q = none → ∀ eh, verifyFileIntegrity fs hashFn q eh = false) := by
  refine ⟨?_, ?_, ?_, ?_⟩
  · simp [verifyFileIntegrity, readFile, hB, jsTruthyStrOpt]
  · simp [verifyFileIntegrity, readFile, hB, jsTruthyStrOpt]
  · simp [verifyFileIntegrity, readFile, hB, jsTruthyStrOpt, hne, calculateHash]
  · intro q hq eh
    simp [verifyFileIntegrity, readFile, hq]

/-- Witness for C9's amended theorem at a concrete readable blob. -/
theorem c9_witness :
    verifyFileIntegrity (fun p => if p = "/x" then some [1, 2] else none)
        (fun b => if b = [1, 2] then "aa" else "bb") "/x" (some "aa") = true :=
  ((c9_verify_integrity_amended
      (fun p => if p = "/x" then some [1, 2] else none)
      (fun b => if b = [1, 2] then "aa" else "bb") "/x" [1, 2] rfl "aa"
      (by decide)).2.2.1).trans (by rfl)

/-- C10: `getFullPath` does not confine uris to the upload root: the uri
`/uploads/../../secret.txt` begins with `/uploads/` yet resolves to
`/app/secret.txt`, outside both the `public/uploads` base directory and the
whole `public` tree (with the module located at
`/app/src/infrastructure/storage`). -/
theorem c10_path_traversal :
    jsStartsWith "/uploads/../../secret.txt" "/uploads/" = true ∧
    getFullPath "/app/src/infrastructure/storage" "/uploads/../../secret.txt" =
      "/app/secret.txt" ∧
    jsStartsWith
      (getFullPath "/app/src/infrastructure/storage" "/uploads/../../secret.txt")
      (baseUploadPath "/app/src/infrastructure/storage") = false ∧
    jsStartsWith
      (getFullPath "/app/src/infrastructure/storage" "/uploads/../../secret.txt")
      "/app/public" = false := by
  refine ⟨rfl, rfl, rfl, rfl⟩

/-- C5: the stored filename generated by the Multer storage callback equals
the spec's `<millisecond-timestamp>-<8-char-random-id>-<normalized-basename><original-extension>`
rendering (same NFD decomposition, diacritic stripping, replacement of every
character outside `[A-Za-z0-9._-]` by `-`, and lowercasing), where the
random id is the first 8 characters of the `uuidv4()` draw — exactly 8
characters whenever the draw has at least 8. -/
theorem c5_stored_name (nfd : String → String) (timestamp : Nat)
    (uuidv4 : String) (originalname : String) :
    multerFilename nfd timestamp uuidv4 originalname =
      specStoredName nfd timestamp (jsSlice uuidv4 8) originalname ∧
    (8 ≤ uuidv4.length → (jsSlice uuidv4 8).length = 8) := by
  constructor
  · have hclass : ∀ c : Char, jsWordDotDash c = specAllowedChar c := by
      intro c
      unfold jsWordDotDash specAllowedChar
      apply decide_eq_decide.mpr
      tauto
    unfold multerFilename specStoredName normalizeFileName specNormalize
    simp only [hclass]
  · intro h
    have : uuidv4.length = uuidv4.data.length := rfl
    unfold jsSlice
    simp only [String.length, List.length_take]
    omega

/-- Witness for C5 at a concrete name (identity as the NFD decomposition of
an ASCII name). -/
theorem c5_witness :
    multerFilename (fun s => s) 1700000000000 "abcdef12-3456-7890" "My File.TXT" =
      specStoredName (fun s => s) 1700000000000
        (jsSlice "abcdef12-3456-7890" 8) "My File.TXT" ∧
    (8 ≤ ("abcdef12-3456-7890" : String).length →
      (jsSlice "abcdef12-3456-7890" 8).length = 8) :=
  c5_stored_name (fun s => s) 1700000000000 "abcdef12-3456-7890" "My File.TXT"

theorem loadEndpoint_error (fs : Fs) (hashFn : Buf → String) (dirname : String)
    (repo : Repo) {body : Option JsVal} {e : ApiError}
    (h : validateLoadFilesRequest body = some e) :
    loadEndpoint fs hashFn dirname repo body = .error e := by
  unfold loadEndpoint
  rw [h]

/-- C7: an ingestion request with zero files (absent or empty `req.files`)
and a retrieval request whose `uris` value is missing/falsy, not an array,
an empty array, or an array containing a non-string are all rejected by the
validation middlewares with a status-400 error before the service runs: the
upload pipeline returns the validation error with the index unchanged (and
the service, which is the only code that writes, is never invoked), and the
load pipeline returns a status-400 error. -/
theorem c7_validation_rejection (cwd : String) (fs : Fs) (hashFn : Buf → String)
    (uuid : Nat → String) (repo : Repo) (dirname : String) :
    (∀ files : Option (List MulterFile), files = none ∨ files = some [] →
      uploadEndpoint cwd fs hashFn uuid repo files =
        (.error ⟨"Arquivo não informado", 400⟩, repo)) ∧
    (∀ body : Option JsVal,
      body = none ∨ (∃ v, body = some v ∧ jsTruthy v = false) ∨
        (∃ v, body = some v ∧ jsIsArray v = false) ∨
        body = some (.varr []) ∨
        (∃ l, body = some (.varr l) ∧ ∃ x ∈ l, jsIsString x = false) →
      ∃ e, loadEndpoint fs hashFn dirname repo body = .error e ∧
        e.statusCode = 400) := by
  constructor
  · intro files hf
    rcases hf with h | h <;> subst h <;> rfl
  · intro body hb
    rcases hb with h | ⟨v, hv, ht⟩ | ⟨v, hv, ha⟩ | h | ⟨l, hl, x, hx, hs⟩
    · subst h
      exact ⟨_, loadEndpoint_error fs hashFn dirname repo rfl, rfl⟩
    · subst hv
      refine ⟨⟨"URIs não informadas", 400⟩, loadEndpoint_error fs hashFn dirname repo ?_, rfl⟩
      simp only [validateLoadFilesRequest, ht]
      rfl
    · subst hv
      cases htv : jsTruthy v with
      | false =>
        refine ⟨⟨"URIs não informadas", 400⟩,
          loadEndpoint_error fs hashFn dirname repo ?_, rfl⟩
        simp only [validateLoadFilesRequest, htv]
        rfl
      | true =>
        refine ⟨⟨"URIs devem ser um array", 400⟩,
          loadEndpoint_error fs hashFn dirname repo ?_, rfl⟩
        simp only [validateLoadFilesRequest, htv, ha]
        cases v <;> simp_all [jsIsArray]
    · subst h
      exact ⟨⟨"Lista de URIs está vazia", 400⟩,
        loadEndpoint_error fs hashFn dirname repo rfl, rfl⟩
    · subst hl
      cases l with
      | nil => simp at hx
      | cons y t =>
        refine ⟨⟨"Todas as URIs devem ser strings", 400⟩,
          loadEndpoint_error fs hashFn dirname repo ?_, rfl⟩
        have hany : (y :: t).any (fun e => jsIsString e = false) = true := by
          apply List.any_eq_true.mpr
          exact ⟨x, hx, by simp [hs]⟩
        simp only [validateLoadFilesRequest, jsTruthy, jsIsArray, hany]
        rfl

/-- Witness for C7: an empty upload batch and an empty `uris` array are both
rejected with status 400 and the index left untouched. -/
theorem c7_witness :
    uploadEndpoint "/app" (fun _ => none) (fun _ => "h") (fun _ => "u")
        (fun _ => none) (some []) =
      (.error ⟨"Arquivo não informado", 400⟩, (fun _ => none : Repo)) ∧
    ∃ e, loadEndpoint (fun _ => none) (fun _ => "h")
        "/app/src/infrastructure/storage" (fun _ => none)
        (some (.varr [])) = .error e ∧ e.statusCode = 400 :=
  ⟨(c7_validation_rejection "/app" (fun _ => none) (fun _ => "h") (fun _ => "u")
      (fun _ => none) "/app/src/infrastructure/storage").1 (some []) (Or.inr rfl),
   (c7_validation_rejection "/app" (fun _ => none) (fun _ => "h") (fun _ => "u")
      (fun _ => none) "/app/src/infrastructure/storage").2 (some (.varr []))
      (Or.inr (Or.inr (Or.inr (Or.inl rfl))))⟩

theorem registerList_key_isSome (cwd : String) (fs : Fs) (hashFn : Buf → String)
    (uuid : Nat → String) {files : List MulterFile} {u : String}
    (hall : ∀ g ∈ files, (fs g.path).isSome = true)
    (hmem : ∃ f ∈ files, mkUri cwd f.path = u)
    (i : Nat) (repo : Repo) :
    ∃ fe, registerList cwd fs hashFn uuid i repo files u = some fe := by
  induction files generalizing i repo with
  | nil => simp at hmem
  | cons g t ih =>
    have hg := hall g (by simp)
    cases hfs : fs g.path with
    | none => rw [hfs] at hg; simp at hg
    | some buffer =>
      rw [registerList]
      simp only [hfs]
      by_cases hex : ∃ x ∈ t, mkUri cwd x.path = u
      · exact ih (fun y hy => hall y (by simp [hy])) hex (i + 1) _
      · push_neg at hex
        obtain ⟨f, hf, hfu⟩ := hmem
        rcases List.mem_cons.mp hf with heq | hmemt
        · subst heq
          rw [registerList_preserve cwd fs hashFn uuid _ _ hex]
          refine ⟨mkEntity cwd hashFn uuid i f buffer, ?_⟩
          simp [saveFile, mkEntity, hfu]
        · exact absurd hfu (hex f hmemt)

/-- C8: when the `k`-th item of an ingestion batch fails (its Multer-written
blob cannot be read back), the whole request fails with the underlying
storage error (the 404 read error), no success response is produced, and the
items before `k` remain registered in the index (the repo equals exactly the
registrations of the prefix, each of which resolves) — no rollback. The
service never writes or deletes blobs (Multer wrote them beforehand), so the
prefix also remains on disk. -/
theorem c8_partial_failure (cwd : String) (fs : Fs) (hashFn : Buf → String)
    (uuid : Nat → String) (repo : Repo) (pre : List MulterFile)
    (bad : MulterFile) (rest : List MulterFile)
    (hpre : ∀ f ∈ pre, (fs f.path).isSome = true) (hbad : fs bad.path = none) :
    uploadFiles cwd fs hashFn uuid repo (pre ++ bad :: rest) =
      (.error ⟨"Arquivo não encontrado: " ++ pathBasename bad.path, 404⟩,
        registerList cwd fs hashFn uuid 0 repo pre) ∧
    (∀ f ∈ pre, ∃ fe,
      registerList cwd fs hashFn uuid 0 repo pre (mkUri cwd f.path) = some fe) ∧
    ∀ dtos repo', uploadFiles cwd fs hashFn uuid repo (pre ++ bad :: rest) ≠
      (.ok dtos, repo') := by
  have herr := uploadFilesGo_error_of_bad cwd fs hashFn uuid 0 repo bad rest hpre hbad
  refine ⟨herr, ?_, ?_⟩
  · intro f hf
    exact registerList_key_isSome cwd fs hashFn uuid hpre ⟨f, hf, rfl⟩ 0 repo
  · intro dtos repo' hok
    rw [uploadFiles] at hok
    rw [herr] at hok
    simp at hok

/-- Witness for C8: with the second item's blob missing, the first item
stays registered and the request errors. -/
theorem c8_witness :
    uploadFiles "/app" (fun p => if p = "/app/public/uploads/2024-01-01/sa" then
        some [1] else none) (fun _ => "h") (fun _ => "u") (fun _ => none)
      [⟨"a.txt", "sa", "/app/public/uploads/2024-01-01/sa", "text/plain", 1⟩,
       ⟨"b.txt", "sb", "/app/public/uploads/2024-01-01/sb", "text/plain", 1⟩] =
      (.error ⟨"Arquivo não encontrado: " ++ pathBasename
          "/app/public/uploads/2024-01-01/sb", 404⟩,
        registerList "/app" (fun p => if p = "/app/public/uploads/2024-01-01/sa" then
          some [1] else none) (fun _ => "h") (fun _ => "u") 0 (fun _ => none)
          [⟨"a.txt", "sa", "/app/public/uploads/2024-01-01/sa", "text/plain", 1⟩]) ∧
    ∃ fe, registerList "/app" (fun p => if p = "/app/public/uploads/2024-01-01/sa" then
        some [1] else none) (fun _ => "h") (fun _ => "u") 0 (fun _ => none)
        [⟨"a.txt", "sa", "/app/public/uploads/2024-01-01/sa", "text/plain", 1⟩]
        (mkUri "/app" "/app/public/uploads/2024-01-01/sa") = some fe := by
  have h := c8_partial_failure "/app"
    (fun p => if p = "/app/public/uploads/2024-01-01/sa" then some [1] else none)
    (fun _ => "h") (fun _ => "u") (fun _ => none)
    [⟨"a.txt", "sa", "/app/public/uploads/2024-01-01/sa", "text/plain", 1⟩]
    ⟨"b.txt", "sb", "/app/public/uploads/2024-01-01/sb", "text/plain", 1⟩ []
    (by intro f hf; simp at hf; subst hf; rfl) (by rfl)
  exact ⟨h.1, h.2.1
    ⟨"a.txt", "sa", "/app/public/uploads/2024-01-01/sa", "text/plain", 1⟩
    (by simp)⟩

/-- C3: over a batch in which every uri resolves and every resolved
artifact's blob is present on disk — "the bytes currently on disk" — (a) if
any resolved artifact records a (JS-truthy) hash and the on-disk bytes hash
differently, the whole request fails with the status-400 integrity error
(named after one of the resolved artifacts); (b) if no resolved artifact
records a truthy hash, retrieval succeeds no matter what bytes the
filesystem now holds. -/
theorem c3_integrity_enforcement (fs : Fs) (hashFn : Buf → String)
    (dirname : String) (repo : Repo) (uris : List String)
    (hres : ∀ u ∈ uris, ∃ fe, repo u = some fe ∧
      ∃ B, fs (getFullPath dirname fe.uri) = some B) :
    ((∃ u ∈ uris, ∃ fe, repo u = some fe ∧ jsTruthyStrOpt fe.hash = true ∧
        ∃ B, fs (getFullPath dirname fe.uri) = some B ∧
          hashFn B ≠ fe.hash.getD "") →
      ∃ fe : FileEnt, (∃ u ∈ uris, repo u = some fe) ∧
        loadFiles fs hashFn dirname repo uris =
          .error ⟨"Falha na verificação de integridade do arquivo: " ++
            fe.uri, 400⟩) ∧
    ((∀ u ∈ uris, ∀ fe, repo u = some fe → jsTruthyStrOpt fe.hash = false) →
      ∃ rs, loadFiles fs hashFn dirname repo uris = .ok rs) := by
  have hsome : ∀ u ∈ uris, (repo u).isSome = true := by
    intro u hu
    obtain ⟨fe, hfe, _⟩ := hres u hu
    simp [hfe]
  have hload := loadFiles_all_resolved fs hashFn dirname repo hsome
  have hmem_inv : ∀ fe : FileEnt, some fe ∈ uris.map repo →
      ∃ u ∈ uris, repo u = some fe := by
    intro fe hfe
    obtain ⟨u, hu, hrepo⟩ := List.mem_map.mp hfe
    exact ⟨u, hu, hrepo⟩
  constructor
  · intro hbad
    obtain ⟨u, hu, fe, hfe, ht, B, hB, hne⟩ := hbad
    have hall : ∀ g : FileEnt, some g ∈ uris.map repo →
        ∃ B, fs (getFullPath dirname g.uri) = some B := by
      intro g hg
      obtain ⟨u', hu', hrepo'⟩ := hmem_inv g hg
      obtain ⟨g', hg', B', hB'⟩ := hres u' hu'
      rw [hrepo'] at hg'
      obtain rfl : g = g' := by injection hg'
      exact ⟨B', hB'⟩
    have hmemfe : some fe ∈ uris.map repo := by
      rw [← hfe]
      exact List.mem_map_of_mem repo hu
    obtain ⟨fe', hm', herr⟩ := loadFilesGo_integrity_error fs hashFn dirname hall
      ⟨fe, hmemfe, ht, B, hB, hne⟩
    exact ⟨fe', hmem_inv fe' hm', by rw [hload]; exact herr⟩
  · intro hclean
    have h2 : ∀ g : FileEnt, some g ∈ uris.map repo →
        jsTruthyStrOpt g.hash = false ∧
        ∃ B, fs (getFullPath dirname g.uri) = some B := by
      intro g hg
      obtain ⟨u', hu', hrepo'⟩ := hmem_inv g hg
      refine ⟨hclean u' hu' g hrepo', ?_⟩
      obtain ⟨g', hg', B', hB'⟩ := hres u' hu'
      rw [hrepo'] at hg'
      obtain rfl : g = g' := by injection hg'
      exact ⟨B', hB'⟩
    obtain ⟨rs, hrs⟩ := loadFilesGo_ok_of_clean fs hashFn dirname h2
    exact ⟨rs, by rw [hload]; exact hrs⟩

/-- Witness for C3: a concrete corrupted blob (recorded hash `"bad"`, bytes
hashing to `"good"`) makes retrieval fail with the integrity error, and the
same blob with no recorded hash loads fine. -/
theorem c3_witness :
    (∃ fe : FileEnt, (∃ u ∈ ["/uploads/2024-01-01/a.txt"],
        (fun u => if u = "/uploads/2024-01-01/a.txt" then
          some (⟨"id", "a", "sa", "p", "/uploads/2024-01-01/a.txt",
            "text/plain", 3, some "bad"⟩ : FileEnt) else none) u = some fe) ∧
      loadFiles (fun p => if p = "/app/public/uploads/2024-01-01/a.txt" then
          some [1, 2, 3] else none)
        (fun b => if b = [1, 2, 3] then "good" else "x")
        "/app/src/infrastructure/storage"
        (fun u => if u = "/uploads/2024-01-01/a.txt" then
          some (⟨"id", "a", "sa", "p", "/uploads/2024-01-01/a.txt",
            "text/plain", 3, some "bad"⟩ : FileEnt) else none)
        ["/uploads/2024-01-01/a.txt"] =
        .error ⟨"Falha na verificação de integridade do arquivo: " ++
          fe.uri, 400⟩) ∧
    (∃ rs, loadFiles (fun p => if p = "/app/public/uploads/2024-01-01/a.txt" then
          some [1, 2, 3] else none)
        (fun b => if b = [1, 2, 3] then "good" else "x")
        "/app/src/infrastructure/storage"
        (fun u => if u = "/uploads/2024-01-01/a.txt" then
          some (⟨"id", "a", "sa", "p", "/uploads/2024-01-01/a.txt",
            "text/plain", 3, none⟩ : FileEnt) else none)
        ["/uploads/2024-01-01/a.txt"] = .ok rs) := by
  constructor
  · exact (c3_integrity_enforcement _ _ _ _ _
      (by
        intro u hu
        simp only [List.mem_singleton] at hu
        subst hu
        exact ⟨_, rfl, [1, 2, 3], by decide⟩)).1
      ⟨"/uploads/2024-01-01/a.txt", by simp, _, rfl, by decide, [1, 2, 3],
        by decide, by decide⟩
  · exact (c3_integrity_enforcement _ _ _ _ _
      (by
        intro u hu
        simp only [List.mem_singleton] at hu
        subst hu
        exact ⟨_, rfl, [1, 2, 3], by decide⟩)).2
      (by
        intro u hu fe hfe
        simp only [List.mem_singleton] at hu
        subst hu
        simp only [if_true, Option.some.injEq] at hfe
        subst hfe
        rfl)

/-- C1: round-trip — for any multer-placed batch (files stored under
`<cwd>/public/uploads/<date>/<storedName>` with pairwise-distinct paths and
non-empty declared MIME types, the storage module living at
`<cwd>/src/infrastructure/storage`), a successful `uploadFiles` followed by
`loadFiles` on the i-th returned uri yields exactly the ingested bytes `B`
as the `data` array (with buffer tag `"Buffer"`), and the returned `type`
equals the MIME type recorded for that file at ingestion (which is also the
`type` of the i-th ingestion response entry). -/
theorem c1_upload_load_roundtrip (csegs : List String) (fs : Fs)
    (hashFn : Buf → String) (uuid : Nat → String) (repo repo' : Repo)
    (files : List MulterFile) (dtos : List FileUploadDto)
    (i : Nat) (hi : i < files.length) (hi2 : i < dtos.length)
    (hcs : csegs ≠ []) (hcl : ∀ s ∈ csegs, cleanSeg s = true)
    (hplaced : ∀ f ∈ files, multerPlaced (cwdOf csegs) fs f)
    (hdistinct : List.Pairwise (fun a b => a.path ≠ b.path) files)
    (hup : uploadFiles (cwdOf csegs) fs hashFn uuid repo files =
      (.ok dtos, repo')) :
    ∃ B, fs ((files.get ⟨i, hi⟩).path) = some B ∧
      (dtos.get ⟨i, hi2⟩).type = (files.get ⟨i, hi⟩).mimetype ∧
      loadFiles fs hashFn (cwdOf csegs ++ "/src/infrastructure/storage") repo'
          [(dtos.get ⟨i, hi2⟩).uri] =
        .ok [⟨⟨"Buffer", B⟩, (files.get ⟨i, hi⟩).mimetype⟩] := by
  have hfmem : files.get ⟨i, hi⟩ ∈ files := List.get_mem files i hi
  obtain ⟨d, n, hd, hn, hpath, hsome, hmt⟩ := hplaced _ hfmem
  obtain ⟨B, hB⟩ := Option.isSome_iff_exists.mp hsome
  have hdtos : dtos = files.map (fun g =>
      (⟨g.mimetype, mkUri (cwdOf csegs) g.path, g.originalname⟩ : FileUploadDto)) :=
    uploadFilesGo_ok_dtos (cwdOf csegs) fs hashFn uuid hup
  subst hdtos
  have hdto_i : (files.map (fun g => (⟨g.mimetype, mkUri (cwdOf csegs) g.path,
        g.originalname⟩ : FileUploadDto))).get ⟨i, hi2⟩ =
      ⟨(files.get ⟨i, hi⟩).mimetype, mkUri (cwdOf csegs) (files.get ⟨i, hi⟩).path,
        (files.get ⟨i, hi⟩).originalname⟩ := by
    simp
  refine ⟨B, hB, by rw [hdto_i], ?_⟩
  have hsnd : repo' = registerList (cwdOf csegs) fs hashFn uuid 0 repo files := by
    have h2 := uploadFilesGo_snd (cwdOf csegs) fs hashFn uuid 0 repo files
    rw [show uploadFilesGo (cwdOf csegs) fs hashFn uuid 0 repo files =
      uploadFiles (cwdOf csegs) fs hashFn uuid repo files from rfl, hup] at h2
    simpa using h2
  have hall : ∀ g ∈ files, (fs g.path).isSome = true := by
    intro g hg
    obtain ⟨_, _, _, _, _, hs, _⟩ := hplaced g hg
    exact hs
  have hPU2 : ∀ g ∈ files, g.path = (cwdOf csegs ++ "/public") ++
      mkUri (cwdOf csegs) g.path := by
    intro g hg
    obtain ⟨dg, ng, hdg, hng, hpg, _, _⟩ := hplaced g hg
    have hug : mkUri (cwdOf csegs) g.path = "/uploads/" ++ dg ++ "/" ++ ng := by
      rw [hpg]
      exact mkUri_multer csegs dg ng hcs hcl hdg hng
    rw [hug, hpg]
    rw [show ("/public/uploads/" : String) = "/public" ++ "/uploads/" from by decide]
    apply str_ext
    simp [sdata_append, List.append_assoc]
  have hinj : ∀ g ∈ files,
      mkUri (cwdOf csegs) g.path = mkUri (cwdOf csegs) (files.get ⟨i, hi⟩).path →
      g.path = (files.get ⟨i, hi⟩).path := by
    intro g hg he
    rw [hPU2 g hg, hPU2 _ hfmem, he]
  have hsplitf : files = files.take i ++ files.get ⟨i, hi⟩ :: files.drop (i + 1) := by
    conv_lhs => rw [← List.take_append_drop i files]
    rw [List.drop_eq_getElem_cons hi]
    simp
  have hdist2 : ∀ g ∈ files.drop (i + 1),
      mkUri (cwdOf csegs) g.path ≠ mkUri (cwdOf csegs) (files.get ⟨i, hi⟩).path := by
    intro g hg he
    have hp := hdistinct
    rw [hsplitf] at hp
    have hpc := (List.pairwise_append.mp hp).2.1
    have hne : (files.get ⟨i, hi⟩).path ≠ g.path :=
      (List.pairwise_cons.mp hpc).1 g hg
    exact hne (hinj g (List.mem_of_mem_drop hg) he).symm
  have hlook := registerList_lookup (cwdOf csegs) fs hashFn uuid 0 repo
    (files.get ⟨i, hi⟩) (files.drop (i + 1))
    (fun g hg => hall g (by rw [hsplitf]; exact List.mem_append_left _ hg))
    hB hdist2
  rw [← hsplitf] at hlook
  have hrepo'_uri : repo' (mkUri (cwdOf csegs) (files.get ⟨i, hi⟩).path) =
      some (mkEntity (cwdOf csegs) hashFn uuid (0 + (files.take i).length)
        (files.get ⟨i, hi⟩) B) := by
    rw [hsnd]
    exact hlook
  have hu_eq : mkUri (cwdOf csegs) (files.get ⟨i, hi⟩).path =
      "/uploads/" ++ d ++ "/" ++ n := by
    rw [hpath]
    exact mkUri_multer csegs d n hcs hcl hd hn
  have hgf : getFullPath (cwdOf csegs ++ "/src/infrastructure/storage")
      (mkEntity (cwdOf csegs) hashFn uuid (0 + (files.take i).length)
        (files.get ⟨i, hi⟩) B).uri = (files.get ⟨i, hi⟩).path := by
    rw [show (mkEntity (cwdOf csegs) hashFn uuid (0 + (files.take i).length)
      (files.get ⟨i, hi⟩) B).uri =
      mkUri (cwdOf csegs) (files.get ⟨i, hi⟩).path from rfl]
    rw [hu_eq, hpath]
    exact getFullPath_multer csegs d n hcs hcl hd hn
  have hfs' : fs (getFullPath (cwdOf csegs ++ "/src/infrastructure/storage")
      (mkEntity (cwdOf csegs) hashFn uuid (0 + (files.take i).length)
        (files.get ⟨i, hi⟩) B).uri) = some B := by
    rw [hgf]
    exact hB
  have hone := loadOne_ok fs hashFn (cwdOf csegs ++ "/src/infrastructure/storage")
    (mkEntity (cwdOf csegs) hashFn uuid (0 + (files.take i).length)
      (files.get ⟨i, hi⟩) B) hfs' (Or.inr rfl)
  rw [hdto_i]
  have hres1 : ∀ v ∈ [mkUri (cwdOf csegs) (files.get ⟨i, hi⟩).path],
      (repo' v).isSome = true := by
    intro v hv
    simp only [List.mem_singleton] at hv
    subst hv
    rw [hrepo'_uri]
    rfl
  rw [loadFiles_all_resolved fs hashFn _ repo' hres1]
  rw [show ([mkUri (cwdOf csegs) (files.get ⟨i, hi⟩).path].map repo') =
    [repo' (mkUri (cwdOf csegs) (files.get ⟨i, hi⟩).path)] from rfl]
  rw [hrepo'_uri]
  rw [loadFilesGo]
  simp only [hone]
  rw [show (mkEntity (cwdOf csegs) hashFn uuid (0 + (files.take i).length)
    (files.get ⟨i, hi⟩) B).mimeType = (files.get ⟨i, hi⟩).mimetype from rfl]
  rw [show loadFilesGo fs hashFn (cwdOf csegs ++ "/src/infrastructure/storage") [] =
    .ok [] from rfl]
  unfold jsOrStr
  rw [if_neg hmt]

/-- Witness for C1: a concrete one-file round trip under `/app`. -/
theorem c1_witness :
    ∃ B, (fun p => if p = "/app/public/uploads/2024-01-01/sx.txt" then
        some ([1, 2, 3] : Buf) else none)
      ((([⟨"a.txt", "sx.txt", "/app/public/uploads/2024-01-01/sx.txt",
          "text/plain", 3⟩] : List MulterFile).get ⟨0, by decide⟩).path) = some B ∧
      (([⟨"text/plain", "/uploads/2024-01-01/sx.txt", "a.txt"⟩] :
        List FileUploadDto).get ⟨0, by decide⟩).type =
        (([⟨"a.txt", "sx.txt", "/app/public/uploads/2024-01-01/sx.txt",
          "text/plain", 3⟩] : List MulterFile).get ⟨0, by decide⟩).mimetype ∧
      loadFiles (fun p => if p = "/app/public/uploads/2024-01-01/sx.txt" then
          some ([1, 2, 3] : Buf) else none) (fun _ => "hh")
        (cwdOf ["app"] ++ "/src/infrastructure/storage")
        (uploadFiles (cwdOf ["app"])
          (fun p => if p = "/app/public/uploads/2024-01-01/sx.txt" then
            some ([1, 2, 3] : Buf) else none) (fun _ => "hh") (fun _ => "u")
          (fun _ => none)
          [⟨"a.txt", "sx.txt", "/app/public/uploads/2024-01-01/sx.txt",
            "text/plain", 3⟩]).2
        [(([⟨"text/plain", "/uploads/2024-01-01/sx.txt", "a.txt"⟩] :
          List FileUploadDto).get ⟨0, by decide⟩).uri] =
      .ok [⟨⟨"Buffer", B⟩,
        (([⟨"a.txt", "sx.txt", "/app/public/uploads/2024-01-01/sx.txt",
          "text/plain", 3⟩] : List MulterFile).get ⟨0, by decide⟩).mimetype⟩] := by
  apply c1_upload_load_roundtrip ["app"]
    (fun p => if p = "/app/public/uploads/2024-01-01/sx.txt" then
      some ([1, 2, 3] : Buf) else none) (fun _ => "hh") (fun _ => "u")
    (fun _ => none) _ _ _ 0 (by decide) (by decide) (by decide) (by decide)
  · intro f hf
    simp only [List.mem_singleton] at hf
    subst hf
    exact ⟨"2024-01-01", "sx.txt", by decide, by decide, by decide, by decide,
      by decide⟩
  · simp
  · rfl
